import Mathlib

/-!
Verification development for the LiteRT-LM API server.

The JavaScript sources are embedded shallowly: JS strings become `List Char`
(`Str`), each JS function becomes a Lean function with the same name and the
same control structure, and the per-request process callbacks become pure
functions of the captured channel texts.  All inputs of interest are ASCII, so
the ASCII fragment of the JS whitespace and case-folding rules is modelled.
-/

namespace LitertLM

/-- A JavaScript string, modelled as its sequence of characters. -/
abbrev Str := List Char

/-- The ASCII whitespace characters recognised by JS `trim` and `\s`
(the Unicode members of that class do not occur in the inputs modelled here). -/
def jsIsSpace (c : Char) : Bool :=
  c = ' ' || c = '\t' || c = '\n' || c = '\r' || c = '\x0b' || c = '\x0c'

/-- JS `String.prototype.trim`. -/
def trim (s : Str) : Str :=
  ((s.dropWhile jsIsSpace).reverse.dropWhile jsIsSpace).reverse

/-- JS `String.prototype.includes`: substring containment. -/
def containsSub (s pat : Str) : Bool :=
  s.tails.any fun t => pat.isPrefixOf t

/-- Index of the first occurrence of `pat` in `s` (`none` if absent). -/
def findSubIdx (pat s : Str) : Option Nat :=
  s.tails.findIdx? fun t => pat.isPrefixOf t

/-- JS `String.prototype.indexOf`, used by the source only after an
`includes` check, so the absent case is arbitrary. -/
def indexOfSub (s pat : Str) : Nat :=
  (findSubIdx pat s).getD s.length

/-- JS `String.prototype.split` with a one-character separator:
`"".split(c) = [""]`, separators at the ends produce empty fields. -/
def splitOnChar (c : Char) : Str → List Str
  | [] => [[]]
  | x :: xs =>
    match splitOnChar c xs with
    | [] => [[]]
    | r :: rs => if x = c then [] :: r :: rs else (x :: r) :: rs

/-- JS `Array.prototype.join` with a one-character separator. -/
def joinSep (c : Char) : List Str → Str
  | [] => []
  | [x] => x
  | x :: y :: xs => x ++ c :: joinSep c (y :: xs)

/-! ### litert-parser.js -/

/-- `responseMarkers` of `parseLiteRTOutput` (the `'model\n'` entry can never
occur inside a line because lines are produced by splitting on `'\n'`). -/
def responseMarkers : List Str :=
  ["Response:".data, "Generated text:".data, "Output:".data, "Assistant:".data,
   "Model output:".data, "Generation:".data, "model\n".data]

/-- `endMarkers` of `parseLiteRTOutput`. -/
def endMarkers : List Str :=
  ["Prefill:".data, "Decode:".data, "Peak memory".data, "Tokens/sec".data,
   "Performance:".data, "Benchmark results:".data, "---".data, "===".data,
   "I0000".data, "W0000".data, "E0000".data, "F0000".data]

/-- The regex `/^[IWEF]\d{4}/` of the log-skip phase. -/
def isLogLineStart (l : Str) : Bool :=
  match l with
  | a :: b :: c :: d :: e :: _ =>
    (a = 'I' || a = 'W' || a = 'E' || a = 'F')
      && b.isDigit && c.isDigit && d.isDigit && e.isDigit
  | _ => false

/-- The log-skip condition: a line at which the actual output starts
(`!line.match(/^[IWEF]\d{4}/) && !line.includes('INFO:') &&
!line.includes('WARNING:') && line.trim()`). -/
def isContentStart (l : Str) : Bool :=
  !isLogLineStart l && !containsSub l "INFO:".data
    && !containsSub l "WARNING:".data && !(trim l).isEmpty

/-- Index of the first content line, paired with the source's loop:
`startIndex` stays `0` when no line qualifies. -/
def startIndexAux (i : Nat) : List Str → Option Nat
  | [] => none
  | l :: rest => if isContentStart l then some i else startIndexAux (i + 1) rest

/-- `startIndex` as computed by the skip loop of `parseLiteRTOutput`. -/
def startIndexOf (lines : List Str) : Nat :=
  (startIndexAux 0 lines).getD 0

/-- The mutable locals of `parseLiteRTOutput`'s primary scan. -/
structure ScanState where
  response : Str
  inResponse : Bool
  found : Bool
deriving Repr, DecidableEq

/-- Whether a line contains any end marker. -/
def containsAnyEnd (l : Str) : Bool :=
  endMarkers.any fun m => containsSub l m

/-- The `for (const marker of responseMarkers)` loop body: on the first
marker contained in the line, enter the response section and, when text
follows the marker on the same line, overwrite the answer buffer with it. -/
def applyMarkers : List Str → Str → ScanState → ScanState
  | [], _, st => st
  | m :: ms, line, st =>
    if containsSub line m then
      let after := trim (line.drop (indexOfSub line m + m.length))
      ⟨if after.isEmpty then st.response else after, true, true⟩
    else applyMarkers ms line st

/-- The collection step of the primary scan (the `inResponse && i > 0`
block): skip blank lines, append non-blank lines with their original
content, newline separated.  Note the guard compares `i` with `0`, not with
the index of the marker line. -/
def collectLine (i : Nat) (line : Str) (st : ScanState) : ScanState :=
  if st.inResponse && decide (0 < i) then
    if st.response.isEmpty && (trim line).isEmpty then st
    else if !(trim line).isEmpty then
      { st with response :=
          if st.response.isEmpty then line else st.response ++ '\n' :: line }
    else st
  else st

/-- The primary scan of `parseLiteRTOutput`, from absolute line index `i`:
break on an end marker once in the response section, otherwise process
markers and collect. -/
def scanFrom : Nat → List Str → ScanState → ScanState
  | _, [], st => st
  | i, l :: rest, st =>
    if containsAnyEnd l && st.inResponse then st
    else scanFrom (i + 1) rest (collectLine i l (applyMarkers responseMarkers l st))

/-- The fallback scan (no response marker found): collect non-empty lines
until a line containing an end marker. -/
def fallbackCollect : List Str → List Str
  | [] => []
  | l :: rest =>
    if containsAnyEnd l then []
    else if !(trim l).isEmpty then l :: fallbackCollect rest
    else fallbackCollect rest

/-- The four `perfPatterns` prefixes `/\n<pre>.*$/s`. -/
def perfMarks : List Str :=
  ["Prefill:".data, "Decode:".data, "Peak memory".data, "Tokens/sec".data]

/-- `response.replace(/\n<pre>.*$/s, '')`: cut from the first occurrence of
a newline followed by the prefix, to the end of the string. -/
def stripPerfOne (pre : Str) (s : Str) : Str :=
  match findSubIdx ('\n' :: pre) s with
  | some i => s.take i
  | none => s

/-- The sentinel returned when nothing could be isolated. -/
def sentinel : Str := "No response generated".data

/-- The post-processing tail of `parseLiteRTOutput`: trim, strip each
trailing performance block (trimming after each), and fall back to the
sentinel when empty. -/
def cleanResponse (r : Str) : Str :=
  let r := trim r
  let r := perfMarks.foldl (fun acc p => trim (stripPerfOne p acc)) r
  if r.isEmpty then sentinel else r

/-- `parseLiteRTOutput` of litert-parser.js: split into lines, skip initial
log lines, run the marker-guided primary scan, fall back to an unguided
collection when no marker was found, then clean up. -/
def parseLiteRTOutput (output : Str) : Str :=
  let lines := splitOnChar '\n' output
  let s := startIndexOf lines
  let st := scanFrom s (lines.drop s) ⟨[], false, false⟩
  let raw :=
    if !st.found && decide (s < lines.length) then
      joinSep '\n' (fallbackCollect (lines.drop s))
    else st.response
  cleanResponse raw

/-! ### parseStructuredOutput (metrics extraction) -/

/-- ASCII lower-casing, the fragment of the `/i` regex flag exercised here. -/
def toLowerA (c : Char) : Char :=
  if 'A' ≤ c && c ≤ 'Z' then Char.ofNat (c.toNat + 32) else c

/-- Match the capture group `(\d+\.?\d*)` at the head of `s`, returning the
captured numeral and the remaining text.  The group is greedy; backtracking
inside it can never turn a failure of the greedy parse into a success when the
following context is `\s*` plus a unit word starting with a letter, so the
greedy parse is the exact regex semantics here. -/
def numToken (s : Str) : Option (Str × Str) :=
  match s with
  | c :: _ =>
    if c.isDigit then
      let ds := s.takeWhile Char.isDigit
      let rest := s.dropWhile Char.isDigit
      match rest with
      | '.' :: r2 => some (ds ++ '.' :: r2.takeWhile Char.isDigit, r2.dropWhile Char.isDigit)
      | _ => some (ds, rest)
    else none
  | [] => none

/-- Match `(\d+\.?\d*)\s*<unit>` (unit compared case-insensitively) at the
head of `s`. -/
def matchNumUnit (unit : Str) (s : Str) : Option Str :=
  match numToken s with
  | some (cap, rest) =>
    if unit.isPrefixOf ((rest.dropWhile jsIsSpace).map toLowerA) then some cap else none
  | none => none

/-- The lazy gap `.*?`: the first position of `s` at which the number and
unit match. -/
def findNumUnit (unit : Str) : Str → Option Str
  | [] => none
  | c :: rest =>
    match matchNumUnit unit (c :: rest) with
    | some cap => some cap
    | none => findNumUnit unit rest

/-- `line.match(/<kw>.*?(\d+\.?\d*)\s*<unit>/i)`: the keyword is located
case-insensitively, then the earliest following number-and-unit wins.  A
match from a later keyword occurrence implies one from the first, so only
the first occurrence needs to be scanned. -/
def matchMetricRegex (kw unit : Str) (line : Str) : Option Str :=
  match findSubIdx kw (line.map toLowerA) with
  | some i => findNumUnit unit (line.drop (i + kw.length))
  | none => none

/-- The `Prefill:` branch of the metrics loop: a case-sensitive `includes`
guard, then the case-insensitive regex. -/
def matchPrefillLine (line : Str) : Option Str :=
  if containsSub line "Prefill:".data then
    matchMetricRegex "prefill:".data "tokens/sec".data line
  else none

/-- The `Decode:` branch of the metrics loop. -/
def matchDecodeLine (line : Str) : Option Str :=
  if containsSub line "Decode:".data then
    matchMetricRegex "decode:".data "tokens/sec".data line
  else none

/-- The `Peak memory` branch of the metrics loop. -/
def matchPeakLine (line : Str) : Option Str :=
  if containsSub line "Peak memory".data then
    matchMetricRegex "peak memory".data "mb".data line
  else none

/-- `result.metrics`: each field holds the captured numeral of the source
line it was assigned from (the source stores `parseFloat` of that numeral);
a field never assigned stays absent. -/
structure Metrics where
  prefillTokensPerSec : Option Str := none
  decodeTokensPerSec : Option Str := none
  peakMemoryMB : Option Str := none
deriving Repr, DecidableEq

/-- One iteration of the `for (const line of lines)` metrics loop: each
matching category assignment overwrites the field. -/
def metricsStep (m : Metrics) (line : Str) : Metrics :=
  let m1 : Metrics :=
    match matchPrefillLine line with
    | some v => ⟨some v, m.decodeTokensPerSec, m.peakMemoryMB⟩
    | none => m
  let m2 : Metrics :=
    match matchDecodeLine line with
    | some v => ⟨m1.prefillTokensPerSec, some v, m1.peakMemoryMB⟩
    | none => m1
  match matchPeakLine line with
  | some v => ⟨m2.prefillTokensPerSec, m2.decodeTokensPerSec, some v⟩
  | none => m2

/-- The result object of `parseStructuredOutput`. -/
structure StructuredOutput where
  response : Str
  metrics : Metrics
deriving Repr, DecidableEq

/-- `parseStructuredOutput` of litert-parser.js. -/
def parseStructuredOutput (output : Str) : StructuredOutput :=
  ⟨parseLiteRTOutput output, (splitOnChar '\n' output).foldl metricsStep {}⟩

/-! ### server.js: runLiteRT close handler -/

/-- Outcome of the `process.on('close')` callback of `runLiteRT`: either the
promise is rejected with an error message, or resolved with an answer. -/
inductive CloseResult where
  | rejected (msg : Str)
  | resolved (answer : Str)
deriving Repr, DecidableEq

/-- The fixed fallback answer of `runLiteRT`. -/
def fallbackGreeting : Str := "Hello! How can I help you today?".data

/-- `error.includes('Check failure') || error.includes('F0000')`. -/
def hasFatalSig (err : Str) : Bool :=
  containsSub err "Check failure".data || containsSub err "F0000".data

/-- `errorLines.find(line => line.includes('F0000'))`. -/
def firstFatalLine (err : Str) : Option Str :=
  (splitOnChar '\n' err).find? fun l => containsSub l "F0000".data

/-- The `process.on('close', (code) => ...)` callback of `runLiteRT`, as a
pure function of the exit code and the two captured channels. -/
def handleClose (code : Int) (output error : Str) : CloseResult :=
  if code ≠ 0 then
    if hasFatalSig error then
      .rejected ("LiteRT fatal error: ".data ++ (firstFatalLine error).getD "Unknown fatal error".data)
    else
      .rejected ("LiteRT process exited with code ".data ++ (toString code).data ++ ": ".data ++ error)
  else if (parseLiteRTOutput output).isEmpty = true ∨ parseLiteRTOutput output = sentinel then
    if (parseLiteRTOutput error).isEmpty = false ∧ parseLiteRTOutput error ≠ sentinel then
      .resolved (parseLiteRTOutput error)
    else .resolved fallbackGreeting
  else .resolved (parseLiteRTOutput output)

/-! ### server.js: streamResponse chunking -/

/-- `fullResponse.split(' ')`. -/
def wordsOf (s : Str) : List Str := splitOnChar ' ' s

/-- `words.slice(i, i + chunkSize).join(' ')`'s join. -/
def joinSp : List Str → Str := joinSep ' '

/-- The chunking loop of `streamResponse`, generalized over the source's
constant `chunkSize = 5` and driven by a fuel so that the recursion is
structural.  Each round yields `chunkSize` words joined by single spaces,
with a trailing space exactly when another round follows
(`i + chunkSize < words.length`).  The source loop does not terminate for
chunk size `0`; here exhausted fuel yields no further chunks, and every
result below assumes a positive chunk size, where a fuel of at least the
word count is always enough. -/
def chunkGo (c : Nat) : Nat → List Str → List Str
  | _, [] => []
  | 0, _ :: _ => []
  | f + 1, w :: ws =>
    if c = 0 ∨ (w :: ws).length ≤ c then [joinSp ((w :: ws).take c)]
    else (joinSp ((w :: ws).take c) ++ [' ']) :: chunkGo c f ((w :: ws).drop c)

/-- The chunking loop with its fuel instantiated to the word count. -/
def chunkWords (c : Nat) (ws : List Str) : List Str :=
  chunkGo c ws.length ws

/-- The sequence of chunks `streamResponse` yields for a full response. -/
def streamChunks (s : Str) : List Str := chunkWords 5 (wordsOf s)

/-- Splitting on whitespace into (non-empty) words, as the spec's wording
of the synthesizer describes it — written only to be compared against the
source's `split(' ')` behaviour.  Fuel-driven; a fuel of at least the
character count is always enough. -/
def wsGo : Nat → Str → List Str
  | _, [] => []
  | 0, _ :: _ => []
  | f + 1, c :: cs =>
    if jsIsSpace c then wsGo f cs
    else (c :: cs.takeWhile fun d => !jsIsSpace d)
      :: wsGo f (cs.dropWhile fun d => !jsIsSpace d)

/-- Whitespace word split with its fuel instantiated. -/
def wsWords (s : Str) : List Str := wsGo s.length s

/-- Grouping a word list into consecutive windows of `c` words (spec-side
description of the chunk grouping), fuel-driven like `chunkGo`. -/
def windowsGo (c : Nat) : Nat → List Str → List (List Str)
  | _, [] => []
  | 0, _ :: _ => []
  | f + 1, w :: ws =>
    if c = 0 ∨ (w :: ws).length ≤ c then [w :: ws]
    else (w :: ws).take c :: windowsGo c f ((w :: ws).drop c)

/-- The windows grouping with its fuel instantiated to the word count. -/
def windows (c : Nat) (ws : List Str) : List (List Str) :=
  windowsGo c ws.length ws

/-- Appending the trailing separator to every chunk except the last
(spec-side description). -/
def addSeps : List Str → List Str
  | [] => []
  | [x] => [x]
  | x :: y :: xs => (x ++ [' ']) :: addSeps (y :: xs)

/-- The synthesizer exactly as the claim describes it: whitespace-split into
words, windows of `c`, single-space joins, trailing space except on the last
chunk. -/
def claimedSynthesize (c : Nat) (s : Str) : List Str :=
  addSeps ((windows c (wsWords s)).map joinSp)

/-! ### General lemmas about the string primitives -/

/-- A split never produces the empty list of fields. -/
theorem splitOnChar_ne_nil (c : Char) (s : Str) : splitOnChar c s ≠ [] := by
  cases s with
  | nil => simp [splitOnChar]
  | cons x xs =>
    simp only [splitOnChar]
    cases h : splitOnChar c xs with
    | nil => simp
    | cons r rs => by_cases hx : x = c <;> simp [hx]

/-- Prepending a character to the first field commutes with joining. -/
theorem joinSep_cons_head (c x : Char) (r : Str) (rs : List Str) :
    joinSep c ((x :: r) :: rs) = x :: joinSep c (r :: rs) := by
  cases rs <;> rfl

/-- Joining undoes splitting: the split/join round trip is the identity. -/
theorem joinSep_splitOnChar (c : Char) (s : Str) : joinSep c (splitOnChar c s) = s := by
  induction s with
  | nil => rfl
  | cons x xs ih =>
    unfold splitOnChar
    cases h : splitOnChar c xs with
    | nil => exact absurd h (splitOnChar_ne_nil c xs)
    | cons r rs =>
      rw [h] at ih
      by_cases hx : x = c
      · subst hx
        simpa [joinSep] using ih
      · simpa [hx, joinSep_cons_head] using congrArg (x :: ·) ih

/-- A field already ending in the separator glues onto a join. -/
theorem joinSep_glue (c : Char) (a b : Str) (t : List Str) :
    joinSep c ((a ++ c :: b) :: t) = a ++ c :: joinSep c (b :: t) := by
  cases t <;> simp [joinSep, List.append_assoc]

/-- Joining an append of two non-empty field lists inserts one separator. -/
theorem joinSp_append (xs : List Str) : ∀ (ys : List Str), xs ≠ [] → ys ≠ [] →
    joinSp (xs ++ ys) = joinSp xs ++ ' ' :: joinSp ys := by
  induction xs with
  | nil => intro ys hx _; exact absurd rfl hx
  | cons x xs ih =>
    intro ys _ hy
    cases xs with
    | nil =>
      cases ys with
      | nil => exact absurd rfl hy
      | cons y ys' => simp [joinSp, joinSep]
    | cons x2 xs2 =>
      have key := ih ys (by simp) hy
      simp only [List.cons_append] at key ⊢
      show x ++ ' ' :: joinSp (x2 :: (xs2 ++ ys))
          = (x ++ ' ' :: joinSp (x2 :: xs2)) ++ ' ' :: joinSp ys
      rw [key]
      simp [List.append_assoc]

/-! ### The primary scan and the log-skip phase -/

/-- When no marker is contained in the line, the marker loop is inert. -/
theorem applyMarkers_of_none (ms : List Str) (line : Str) (st : ScanState)
    (h : ∀ m ∈ ms, containsSub line m = false) : applyMarkers ms line st = st := by
  induction ms with
  | nil => rfl
  | cons m ms ih =>
    have hm := h m (by simp)
    simp only [applyMarkers, hm]
    exact ih fun m' hm' => h m' (by simp [hm'])

/-- Unfolding of one step of the primary scan. -/
theorem scanFrom_cons (i : Nat) (l : Str) (rest : List Str) (st : ScanState) :
    scanFrom i (l :: rest) st =
      if containsAnyEnd l && st.inResponse then st
      else scanFrom (i + 1) rest (collectLine i l (applyMarkers responseMarkers l st)) :=
  rfl

/-- Without response markers the scan never enters the response section and
changes nothing. -/
theorem scanFrom_no_marker (bs : List Str) : ∀ (i : Nat) (r : Str),
    (∀ l ∈ bs, ∀ m ∈ responseMarkers, containsSub l m = false) →
    scanFrom i bs ⟨r, false, false⟩ = ⟨r, false, false⟩ := by
  induction bs with
  | nil => intro i r _; rfl
  | cons l bs ih =>
    intro i r h
    have hm : applyMarkers responseMarkers l ⟨r, false, false⟩ = ⟨r, false, false⟩ :=
      applyMarkers_of_none _ _ _ (h l (by simp))
    rw [scanFrom_cons, hm]
    have hc : collectLine i l ⟨r, false, false⟩ = ⟨r, false, false⟩ := by
      simp [collectLine]
    simp only [Bool.and_false, hc]
    have := ih (i + 1) r fun l' hl' => h l' (by simp [hl'])
    simpa using this

/-- When no line qualifies as content, the skip loop finds nothing. -/
theorem startIndexAux_of_none : ∀ (ls : List Str) (i : Nat),
    (∀ l ∈ ls, isContentStart l = false) → startIndexAux i ls = none := by
  intro ls
  induction ls with
  | nil => intro i _; rfl
  | cons l ls ih =>
    intro i h
    simp only [startIndexAux, h l (by simp)]
    exact ih (i + 1) fun l' hl' => h l' (by simp [hl'])

/-- Once inside the response section, the collection loop appends exactly
the non-blank lines, newline-separated, onto the current buffer, and drops
every blank line (the scanned lines containing no end or response marker). -/
theorem scanFrom_inResponse (bs : List Str) : ∀ (i : Nat) (r : Str) (f : Bool),
    0 < i →
    (∀ l ∈ bs, containsAnyEnd l = false ∧ ∀ m ∈ responseMarkers, containsSub l m = false) →
    (scanFrom i bs ⟨r, true, f⟩).response =
      joinSep '\n' ((if r.isEmpty then [] else [r]) ++ bs.filter fun l => !(trim l).isEmpty) := by
  induction bs with
  | nil =>
    intro i r f _ _
    cases r <;> simp [scanFrom, joinSep]
  | cons l bs ih =>
    intro i r f hi h
    have hend : containsAnyEnd l = false := (h l (by simp)).1
    have hm : applyMarkers responseMarkers l ⟨r, true, f⟩ = ⟨r, true, f⟩ :=
      applyMarkers_of_none _ _ _ (h l (by simp)).2
    have hrest : ∀ l' ∈ bs, containsAnyEnd l' = false ∧
        ∀ m ∈ responseMarkers, containsSub l' m = false :=
      fun l' hl' => h l' (by simp [hl'])
    have hi' : decide (0 < i) = true := decide_eq_true hi
    rw [scanFrom_cons, hm, hend]
    simp only [Bool.false_and, Bool.false_eq_true, if_false]
    by_cases hblank : (trim l).isEmpty
    · have hcoll : collectLine i l ⟨r, true, f⟩ = ⟨r, true, f⟩ := by
        by_cases hr : r.isEmpty <;> simp [collectLine, hi', hblank, hr]
      rw [hcoll, ih (i + 1) r f (by omega) hrest]
      simp [List.filter_cons, hblank]
    · have hb' : (trim l).isEmpty = false := by simpa using hblank
      have hlne : l ≠ [] := by
        intro he; subst he; simp [trim] at hb'
      have hl' : l.isEmpty = false := by simp [hlne]
      by_cases hr : r.isEmpty
      · have hre : r = [] := List.isEmpty_iff.mp hr
        have hcoll : collectLine i l ⟨r, true, f⟩ = ⟨l, true, f⟩ := by
          simp [collectLine, hi', hb', hr]
        rw [hcoll, ih (i + 1) l f (by omega) hrest]
        simp [hre, List.filter_cons, hb', hl']
      · have hr' : r.isEmpty = false := by simpa using hr
        have hcoll : collectLine i l ⟨r, true, f⟩ = ⟨r ++ '\n' :: l, true, f⟩ := by
          simp [collectLine, hi', hb', hr']
        rw [hcoll, ih (i + 1) (r ++ '\n' :: l) f (by omega) hrest]
        have hne' : (r ++ '\n' :: l).isEmpty = false := by simp
        simp only [List.filter_cons, hb', Bool.not_false, if_true, hne', hr',
          Bool.false_eq_true, if_false, List.nil_append, List.singleton_append]
        rw [joinSep_glue]
        rfl

/-! ### Metrics fold lemmas -/

/-- One metrics step assigns the prefill field from the line when it
matches, else keeps it. -/
theorem metricsStep_prefill (m : Metrics) (l : Str) :
    (metricsStep m l).prefillTokensPerSec
      = (matchPrefillLine l).or m.prefillTokensPerSec := by
  unfold metricsStep
  cases matchPrefillLine l <;> cases matchDecodeLine l <;> cases matchPeakLine l <;> rfl

/-- One metrics step assigns the decode field from the line when it
matches, else keeps it. -/
theorem metricsStep_decode (m : Metrics) (l : Str) :
    (metricsStep m l).decodeTokensPerSec
      = (matchDecodeLine l).or m.decodeTokensPerSec := by
  unfold metricsStep
  cases matchPrefillLine l <;> cases matchDecodeLine l <;> cases matchPeakLine l <;> rfl

/-- One metrics step assigns the peak-memory field from the line when it
matches, else keeps it. -/
theorem metricsStep_peak (m : Metrics) (l : Str) :
    (metricsStep m l).peakMemoryMB = (matchPeakLine l).or m.peakMemoryMB := by
  unfold metricsStep
  cases matchPrefillLine l <;> cases matchDecodeLine l <;> cases matchPeakLine l <;> rfl

/-- `Option.or` is associative. -/
theorem option_or_assoc (a b c : Option Str) : (a.or b).or c = a.or (b.or c) := by
  cases a <;> cases b <;> rfl

/-- The metrics fold, restricted to one field: the result is the match
found first when scanning the lines from the end (the last matching line),
with the initial value as fallback. -/
theorem foldl_metrics_field (g : Str → Option Str) (get : Metrics → Option Str)
    (hstep : ∀ m l, get (metricsStep m l) = (g l).or (get m)) :
    ∀ (ls : List Str) (m : Metrics),
      get (ls.foldl metricsStep m) = (ls.reverse.findSome? g).or (get m) := by
  intro ls
  induction ls with
  | nil => intro m; simp
  | cons l ls ih =>
    intro m
    simp only [List.foldl_cons, List.reverse_cons]
    rw [ih, hstep, List.findSome?_append, option_or_assoc]
    have : List.findSome? g [l] = g l := by
      cases h : g l <;> simp [List.findSome?_cons, h]
    rw [this]

/-! ### Chunker lemmas -/

/-- With a positive chunk size and enough fuel, concatenating all chunks
gives back the single-space join of the word list. -/
theorem flatten_chunkGo (c : Nat) (hc : 0 < c) :
    ∀ (f : Nat) (ws : List Str), ws.length ≤ f →
      (chunkGo c f ws).flatten = joinSp ws := by
  intro f
  induction f with
  | zero =>
    intro ws h
    have : ws = [] := List.length_eq_zero.mp (Nat.le_zero.mp h)
    subst this
    rfl
  | succ f ih =>
    intro ws h
    match ws with
    | [] => rfl
    | w :: ws' =>
      simp only [chunkGo]
      by_cases hcond : c = 0 ∨ (w :: ws').length ≤ c
      · rcases hcond with h0 | hle
        · omega
        · rw [if_pos (Or.inr hle), List.take_of_length_le hle]
          simp
      · rw [if_neg hcond]
        push_neg at hcond
        have hlt : c < (w :: ws').length := hcond.2
        have hdl : ((w :: ws').drop c).length ≤ f := by
          rw [List.length_drop]; simp at h ⊢; omega
        have htake : (w :: ws').take c ≠ [] := by
          cases c with
          | zero => omega
          | succ c' => simp [List.take]
        have hdrop : (w :: ws').drop c ≠ [] := by
          apply List.length_pos.mp
          rw [List.length_drop]; omega
        rw [List.flatten_cons, ih _ hdl, List.append_assoc, List.singleton_append,
          ← joinSp_append _ _ htake hdrop, List.take_append_drop]

/-- With enough fuel the windows grouping of a non-empty word list is
non-empty. -/
theorem windowsGo_ne_nil (c : Nat) (f : Nat) (w : Str) (ws : List Str) :
    windowsGo c (f + 1) (w :: ws) ≠ [] := by
  simp only [windowsGo]
  split <;> simp

/-- With a positive chunk size and enough fuel, the source's chunking loop
is exactly: group into windows, join each window with single spaces, append
the trailing separator to all but the last chunk. -/
theorem chunkGo_eq_addSeps (c : Nat) (hc : 0 < c) :
    ∀ (f : Nat) (ws : List Str), ws.length ≤ f →
      chunkGo c f ws = addSeps ((windowsGo c f ws).map joinSp) := by
  intro f
  induction f with
  | zero =>
    intro ws h
    have : ws = [] := List.length_eq_zero.mp (Nat.le_zero.mp h)
    subst this
    rfl
  | succ f ih =>
    intro ws h
    match ws with
    | [] => rfl
    | w :: ws' =>
      simp only [chunkGo, windowsGo]
      by_cases hcond : c = 0 ∨ (w :: ws').length ≤ c
      · rw [if_pos hcond, if_pos hcond, List.map_cons, List.map_nil]
        rcases hcond with h0 | hle
        · omega
        · rw [List.take_of_length_le hle]
          rfl
      · rw [if_neg hcond, if_neg hcond]
        push_neg at hcond
        have hlt : c < (w :: ws').length := hcond.2
        have hdl : ((w :: ws').drop c).length ≤ f := by
          rw [List.length_drop]; simp at h ⊢; omega
        have hdrop : (w :: ws').drop c ≠ [] := by
          apply List.length_pos.mp
          rw [List.length_drop]; omega
        rw [ih _ hdl, List.map_cons]
        obtain ⟨d, ds, hds⟩ : ∃ d ds, (w :: ws').drop c = d :: ds :=
          List.exists_cons_of_ne_nil hdrop
        obtain ⟨g, hg⟩ : ∃ g, f = g + 1 := by
          have : 0 < f := by
            have := List.length_pos.mpr hdrop
            omega
          exact ⟨f - 1, by omega⟩
        have hwin : windowsGo c f ((w :: ws').drop c) ≠ [] := by
          rw [hds, hg]; exact windowsGo_ne_nil c g d ds
        obtain ⟨p, ps, hps⟩ : ∃ p ps, windowsGo c f ((w :: ws').drop c) = p :: ps :=
          List.exists_cons_of_ne_nil hwin
        rw [hps, List.map_cons, addSeps]

/-! ### Claim theorems -/

/-- C1: the claim says that with a line exactly equal to a response marker,
one or more non-blank lines, then an end-marker line, `extract` returns
exactly the intervening lines regardless of what precedes the marker line.
The code contradicts its own comment `Skip the marker line itself`: the
guard `i > 0` only skips the very first line of the input, so whenever any
line precedes the marker line, the marker line itself is collected into the
answer.  Evaluation at such an input: a preceding line `x`, marker line
`Response:`, body `hello`, end line `Prefill: done` yields
`Response:\nhello`, not `hello`. -/
theorem c1_marker_line_kept :
    parseLiteRTOutput "x\nResponse:\nhello\nPrefill: done".data
      = "Response:\nhello".data := by decide

/-- C2: the spec scenario expects exactly `Paris is the capital of France.`
for the given stdout.  By the same `i > 0` slip as in C1, the marker line is
appended again after its own suffix had been stored, duplicating the
answer text with the marker line. -/
theorem c2_marker_line_duplicated :
    parseLiteRTOutput
        "I0001 00:00:00 init\nResponse: Paris is the capital of France.\nPrefill: 120 tokens/sec\n".data
      = "Paris is the capital of France.\nResponse: Paris is the capital of France.".data := by
  decide

/-- C3 counterexample: an input consisting solely of log-prefixed lines for
which `extract` returns the log line itself, not the sentinel
`No response generated` — the skip loop leaves the start index at `0`, and
the fallback scan then collects the log line. -/
theorem c3_cex :
    (∀ l ∈ splitOnChar '\n' "I0001 00:00:00 init".data, isContentStart l = false) ∧
    parseLiteRTOutput "I0001 00:00:00 init".data = "I0001 00:00:00 init".data ∧
    parseLiteRTOutput "I0001 00:00:00 init".data ≠ sentinel := by decide

/-- C3 amended: for input consisting solely of log-prefixed or blank lines
(none containing a response marker), the scan start index remains `0` — it
is not set to the end of input — and `extract` returns the cleaned join of
the lines collected by the fallback scan over those very log lines; the
sentinel appears only when that collection is empty. -/
theorem c3_amended (s : Str)
    (h1 : ∀ l ∈ splitOnChar '\n' s, isContentStart l = false)
    (h2 : ∀ l ∈ splitOnChar '\n' s, ∀ m ∈ responseMarkers, containsSub l m = false) :
    startIndexOf (splitOnChar '\n' s) = 0 ∧
    parseLiteRTOutput s
      = cleanResponse (joinSep '\n' (fallbackCollect (splitOnChar '\n' s))) := by
  have hidx : startIndexOf (splitOnChar '\n' s) = 0 := by
    unfold startIndexOf
    rw [startIndexAux_of_none _ _ h1]
    rfl
  refine ⟨hidx, ?_⟩
  have hlen : 0 < (splitOnChar '\n' s).length :=
    List.length_pos.mpr (splitOnChar_ne_nil '\n' s)
  have hd : decide (0 < (splitOnChar '\n' s).length) = true := decide_eq_true hlen
  simp only [parseLiteRTOutput, hidx, List.drop_zero]
  rw [scanFrom_no_marker _ _ _ h2]
  simp [hd]

/-- C3 amended, applied at a concrete all-log input. -/
theorem c3_amended_w :
    (∀ l ∈ splitOnChar '\n' "I0002 boot".data, isContentStart l = false) ∧
    startIndexOf (splitOnChar '\n' "I0002 boot".data) = 0 ∧
    parseLiteRTOutput "I0002 boot".data
      = cleanResponse (joinSep '\n' (fallbackCollect (splitOnChar '\n' "I0002 boot".data))) :=
  ⟨by decide, (c3_amended "I0002 boot".data (by decide) (by decide)).1,
    (c3_amended "I0002 boot".data (by decide) (by decide)).2⟩

/-- C4 counterexample: with two `Prefill:` lines the reported value is the
one of the last matching line (`2`), not the first (`1`), although the
first line matches with a different value. -/
theorem c4_cex :
    (parseStructuredOutput "Prefill: 1 tokens/sec\nPrefill: 2 tokens/sec".data).metrics.prefillTokensPerSec
        = some "2".data ∧
    matchPrefillLine "Prefill: 1 tokens/sec".data = some "1".data ∧
    ("1".data : Str) ≠ "2".data := by decide

/-- C4 amended: for each of the three categories, the reported value is the
capture of the last matching line (the first match when scanning the lines
from the end); a category with no matching line is omitted (`none`), never
defaulted. -/
theorem c4_amended (s : Str) :
    (parseStructuredOutput s).metrics.prefillTokensPerSec
        = (splitOnChar '\n' s).reverse.findSome? matchPrefillLine ∧
    (parseStructuredOutput s).metrics.decodeTokensPerSec
        = (splitOnChar '\n' s).reverse.findSome? matchDecodeLine ∧
    (parseStructuredOutput s).metrics.peakMemoryMB
        = (splitOnChar '\n' s).reverse.findSome? matchPeakLine := by
  have h1 := foldl_metrics_field matchPrefillLine (fun m => m.prefillTokensPerSec)
    metricsStep_prefill (splitOnChar '\n' s) {}
  have h2 := foldl_metrics_field matchDecodeLine (fun m => m.decodeTokensPerSec)
    metricsStep_decode (splitOnChar '\n' s) {}
  have h3 := foldl_metrics_field matchPeakLine (fun m => m.peakMemoryMB)
    metricsStep_peak (splitOnChar '\n' s) {}
  simp only [Option.or_none] at h1 h2 h3
  exact ⟨h1, h2, h3⟩

/-- C5 counterexample: a blank line inside the response body is dropped,
not preserved as an empty line. -/
theorem c5_cex :
    parseLiteRTOutput "Response:\nhello\n\nworld".data = "hello\nworld".data ∧
    parseLiteRTOutput "Response:\nhello\n\nworld".data ≠ "hello\n\nworld".data := by decide

/-- C5 amended, applied at a concrete body with an interior blank line. -/
theorem c5_w :
    0 < 1 ∧
    (scanFrom 1 ["hello".data, [], "world".data] ⟨[], true, true⟩).response
      = joinSep '\n' ((if ([] : Str).isEmpty then [] else [[]])
          ++ (["hello".data, [], "world".data].filter fun l => !(trim l).isEmpty)) :=
  ⟨Nat.one_pos,
    scanFrom_inResponse ["hello".data, [], "world".data] 1 [] true Nat.one_pos (by decide)⟩

/-- C6 counterexample: the source splits on the single space character, not
on whitespace; on `a  b` (two spaces) the source yields the chunk `a  b`
while the claimed whitespace-splitting synthesizer yields `a b`. -/
theorem c6_cex :
    streamChunks "a  b".data = ["a  b".data] ∧
    claimedSynthesize 5 "a  b".data = ["a b".data] ∧
    streamChunks "a  b".data ≠ claimedSynthesize 5 "a  b".data := by decide

/-- C6 amended: for every answer and positive chunk size, the source's
chunking loop splits the answer on the single space character (keeping
empty words for consecutive spaces), groups the words into consecutive
windows of the chunk size, joins each window with a single space, and
appends a trailing space to every chunk except the last; in particular the
spec's example yields exactly `a b c d e ` then `f g`. -/
theorem c6_amended :
    (∀ (s : Str) (c : Nat), 0 < c →
      chunkWords c (wordsOf s) = addSeps ((windows c (wordsOf s)).map joinSp)) ∧
    streamChunks "a b c d e f g".data = ["a b c d e ".data, "f g".data] := by
  constructor
  · intro s c hc
    unfold chunkWords windows
    exact chunkGo_eq_addSeps c hc _ _ (Nat.le_refl _)
  · decide

/-- C6 amended, applied at a concrete answer and chunk size. -/
theorem c6_amended_w :
    0 < 5 ∧
    chunkWords 5 (wordsOf "hi there".data)
      = addSeps ((windows 5 (wordsOf "hi there".data)).map joinSp) :=
  ⟨by decide, c6_amended.1 "hi there".data 5 (by decide)⟩

/-- C7 counterexample: for the empty answer the synthesizer does not yield
an empty sequence. -/
theorem c7_cex : streamChunks [] ≠ [] := by decide

/-- C7 amended: for the empty answer, `split(' ')` yields the single empty
word, so the synthesizer yields exactly one chunk — the empty string — not
zero chunks. -/
theorem c7_empty_single_chunk : streamChunks [] = [[]] := by decide

/-- C8 counterexample: stderr containing the check-failure marker but no
`F0000` line is a fatal signature, yet the rejection message carries the
placeholder `Unknown fatal error` — no stderr line containing the fatal
prefix exists, and the message does not carry the stderr line. -/
theorem c8_cex :
    hasFatalSig "Check failure: model load".data = true ∧
    firstFatalLine "Check failure: model load".data = none ∧
    handleClose 1 [] "Check failure: model load".data
      = .rejected "LiteRT fatal error: Unknown fatal error".data ∧
    containsSub "LiteRT fatal error: Unknown fatal error".data
        "Check failure: model load".data = false := by decide

/-- C8 amended: on non-zero exit with a fatal signature in stderr, the
invocation rejects with a fatal-error message carrying the first stderr
line containing `F0000` when such a line exists, and the placeholder
`Unknown fatal error` otherwise; on non-zero exit without a fatal
signature it rejects with a message carrying the exit code and the full
stderr text. -/
theorem c8_amended (code : Int) (out err : Str) (hc : code ≠ 0) :
    (∀ L, hasFatalSig err = true → firstFatalLine err = some L →
      handleClose code out err = .rejected ("LiteRT fatal error: ".data ++ L)) ∧
    (hasFatalSig err = true → firstFatalLine err = none →
      handleClose code out err
        = .rejected ("LiteRT fatal error: ".data ++ "Unknown fatal error".data)) ∧
    (hasFatalSig err = false →
      handleClose code out err
        = .rejected ("LiteRT process exited with code ".data
            ++ (toString code).data ++ ": ".data ++ err)) := by
  refine ⟨?_, ?_, ?_⟩
  · intro L hsig hL
    simp [handleClose, hc, hsig, hL]
  · intro hsig hnone
    simp [handleClose, hc, hsig, hnone]
  · intro hsig
    simp [handleClose, hc, hsig]

/-- C8 amended, applied at the spec's scenario: exit code 1 and stderr
`F0000 00:00:00 Check failure: model load`. -/
theorem c8_amended_w :
    ((1 : Int) ≠ 0) ∧
    hasFatalSig "F0000 00:00:00 Check failure: model load".data = true ∧
    firstFatalLine "F0000 00:00:00 Check failure: model load".data
      = some "F0000 00:00:00 Check failure: model load".data ∧
    handleClose 1 [] "F0000 00:00:00 Check failure: model load".data
      = .rejected ("LiteRT fatal error: ".data
          ++ "F0000 00:00:00 Check failure: model load".data) :=
  ⟨by decide, by decide, by decide,
    (c8_amended 1 [] "F0000 00:00:00 Check failure: model load".data (by decide)).1
      "F0000 00:00:00 Check failure: model load".data (by decide) (by decide)⟩

/-- C9: on exit code 0 the invocation always resolves — with the stdout
extraction when it is non-empty and not the sentinel, else with the stderr
extraction when that is non-empty and not the sentinel, else with the fixed
greeting. -/
theorem c9_exit_zero (out err : Str) :
    handleClose 0 out err = .resolved (
      if (parseLiteRTOutput out).isEmpty = false ∧ parseLiteRTOutput out ≠ sentinel then
        parseLiteRTOutput out
      else if (parseLiteRTOutput err).isEmpty = false ∧ parseLiteRTOutput err ≠ sentinel then
        parseLiteRTOutput err
      else fallbackGreeting) := by
  unfold handleClose
  rw [if_neg (by decide : ¬((0 : Int) ≠ 0))]
  by_cases h1 : (parseLiteRTOutput out).isEmpty = true ∨ parseLiteRTOutput out = sentinel
  · have hno : ¬((parseLiteRTOutput out).isEmpty = false ∧ parseLiteRTOutput out ≠ sentinel) := by
      rcases h1 with h | h
      · rintro ⟨ha, _⟩
        rw [h] at ha
        exact absurd ha (by simp)
      · rintro ⟨_, hb⟩
        exact hb h
    rw [if_pos h1, if_neg hno]
    by_cases h2 : (parseLiteRTOutput err).isEmpty = false ∧ parseLiteRTOutput err ≠ sentinel
    · rw [if_pos h2, if_pos h2]
    · rw [if_neg h2, if_neg h2]
  · push_neg at h1
    have hyes : (parseLiteRTOutput out).isEmpty = false ∧ parseLiteRTOutput out ≠ sentinel := by
      refine ⟨?_, h1.2⟩
      cases hb : (parseLiteRTOutput out).isEmpty
      · rfl
      · exact absurd hb h1.1
    have hn2 : ¬((parseLiteRTOutput out).isEmpty = true ∨ parseLiteRTOutput out = sentinel) := by
      rintro (h | h)
      · rw [hyes.1] at h
        exact absurd h (by simp)
      · exact hyes.2 h
    rw [if_neg hn2, if_pos hyes]

/-- C10: concatenating all chunks the synthesizer yields reproduces the
answer exactly — the windows partition the words of the single-space split,
the per-chunk joins reinsert the interior spaces, the trailing separators
reinsert the boundary spaces, and the split/join round trip is the
identity. -/
theorem c10_stream_concat (s : Str) : (streamChunks s).flatten = s := by
  unfold streamChunks chunkWords
  rw [flatten_chunkGo 5 (by decide) _ _ (Nat.le_refl _)]
  exact joinSep_splitOnChar ' ' s

end LitertLM

